import Mathlib

/-!
# Verification of the long-term-memory / context-assembly core of nebulus-gantry

This file gives a shallow embedding, in Lean 4, of the memory pipeline of the
chat backend:

* `backend/services/document_service.py` — `chunk_text`, `delete_document`;
* `backend/services/graph_service.py` — the NetworkX knowledge graph
  (`add_fact`, `get_related`, `save`) and `extract_entities`;
* `backend/routers/chat.py` — the `generate()` async generator driving one
  chat turn, and the keyword signature of the `LLMService.stream_chat` call.

Python strings are modelled as `List Char`, Python dicts holding string keys
and values as insertion-ordered association lists, fallible operations as
`Except`, and the possibly non-terminating chunking loop through an explicit
fuel parameter (`none` = the source loop does not terminate within the fuel).
Theorems about each specification claim follow the definitions.
-/

namespace NebulusGantry

/-! ## Python string primitives over `List Char` -/

/-- The ASCII whitespace characters recognised by Python's `str.split` /
`str.strip` (the source texts are ASCII; the Unicode extras are irrelevant). -/
def isPySpace (c : Char) : Bool :=
  c = ' ' || c = '\t' || c = '\n' || c = '\r' || c = '\x0b' || c = '\x0c'

/-- Python `text.strip()`: drop leading and trailing whitespace. -/
def pyStrip (l : List Char) : List Char :=
  ((l.dropWhile isPySpace).reverse.dropWhile isPySpace).reverse

/-- Python slice `text[a:b]` for `0 ≤ a, b` (out-of-range ends are clamped). -/
def pySlice (l : List Char) (a b : Nat) : List Char :=
  (l.take b).drop a

/-- Python `text.rfind(sub, a, b)`: highest index `i` with `a ≤ i` and
`i + sub.length ≤ min b text.length` at which `sub` occurs; `-1` if none. -/
def pyRfind (l pat : List Char) (a b : Nat) : Int :=
  let bound := min b l.length
  let cand := (List.range (l.length + 1)).filter fun i =>
    decide (a ≤ i) && decide (i + pat.length ≤ bound) &&
      decide (pySlice l i (i + pat.length) = pat)
  match cand.max? with
  | some i => (i : Int)
  | none => -1

/-! ## `chunk_text` (document_service.py lines 74–104)

`chunkStepEnd` computes the cut position `end` for the window starting at
`start`: the hard cut `start + chunk_size`, moved back to a paragraph break
(`"\n\n"`) or else a sentence break (`". "`) when one occurs past the window
midpoint, exactly as in the source. -/

def chunkStepEnd (text : List Char) (start chunkSize : Nat) : Nat :=
  let end0 := start + chunkSize
  if end0 < text.length then
    let paraBreak := pyRfind text ['\n', '\n'] start end0
    if paraBreak > ((start + chunkSize / 2 : Nat) : Int) then
      (paraBreak + 2).toNat
    else
      let sentenceBreak := pyRfind text ['.', ' '] start end0
      if sentenceBreak > ((start + chunkSize / 2 : Nat) : Int) then
        (sentenceBreak + 2).toNat
      else end0
  else end0

/-- The `while start < len(text)` loop of `chunk_text`, with an explicit fuel
bounding the number of iterations; `none` models a loop that fails to
terminate within the fuel. -/
def chunkTextAux (text : List Char) (chunkSize overlap : Nat) :
    Nat → Nat → List (List Char) → Option (List (List Char))
  | 0, _, _ => none
  | fuel + 1, start, chunks =>
    if start < text.length then
      let e := chunkStepEnd text start chunkSize
      let chunk := pyStrip (pySlice text start e)
      let chunks' := if chunk ≠ [] then chunks ++ [chunk] else chunks
      let start' := if e < text.length then e - overlap else text.length
      chunkTextAux text chunkSize overlap fuel start' chunks'
    else some chunks

/-- `chunk_text(text, chunk_size, overlap)`. The fuel `text.length + 1`
suffices for any run in which the window start strictly advances each
iteration; a parameter choice making the source loop spin forever gives
`none`. -/
def chunkText (text : List Char) (chunkSize overlap : Nat) :
    Option (List (List Char)) :=
  if text = [] then some []
  else chunkTextAux text chunkSize overlap (text.length + 1) 0 []

/-- Source constant `CHUNK_SIZE = 2000`. -/
def CHUNK_SIZE : Nat := 2000

/-- Source constant `CHUNK_OVERLAP = 100`. -/
def CHUNK_OVERLAP : Nat := 100

/-! ## `DocumentService.delete_document` (document_service.py lines 323–343)

The ids of a document's chunks are reconstructed from `document_id` and the
stored `chunk_count` alone: `doc_<document_id>_chunk_<i>` for
`i in range(chunk_count)`. -/

/-- The stored document row, as far as deletion is concerned. -/
structure DocumentRow where
  id : Nat
  chunkCount : Nat
deriving DecidableEq, Repr

/-- `[f"doc_{document_id}_chunk_{i}" for i in range(chunk_count)]`. -/
def chunkIdsFor (documentId chunkCount : Nat) : List String :=
  (List.range chunkCount).map fun i =>
    "doc_" ++ Nat.repr documentId ++ "_chunk_" ++ Nat.repr i

/-- `delete_document`: result is the list of chunk ids whose deletion is
issued to the vector store, and the boolean returned to the caller.  A
missing document issues nothing and returns `False`; chunk deletions are
issued only when the ChromaDB client is available and `chunk_count > 0`. -/
def deleteDocument (document : Option DocumentRow) (chromaAvailable : Bool) :
    List String × Bool :=
  match document with
  | none => ([], false)
  | some d =>
    (if chromaAvailable && decide (0 < d.chunkCount) then
        chunkIdsFor d.id d.chunkCount
      else [], true)

/-! ## `GraphService` (graph_service.py)

A NetworkX `DiGraph` is modelled as insertion-ordered lists of nodes and
edges; a Python attribute dict is an insertion-ordered association list with
string keys and values.  `dict.update` overwrites the value of an existing
key in place and appends new keys, as in CPython. -/

/-- An attribute dict: insertion-ordered `key ↦ value` pairs. -/
abbrev AttrDict : Type := List (String × String)

/-- `d.get(k)` / `d[k]`: the value at the first occurrence of `k`. -/
def dictGet (d : AttrDict) (k : String) : Option String :=
  (d.find? fun p => p.1 = k).map (·.2)

/-- `d[k] = v`: overwrite in place if `k` is present, else append. -/
def dictSet (d : AttrDict) (k v : String) : AttrDict :=
  if (d.find? fun p => p.1 = k).isSome then
    d.map fun p => if p.1 = k then (k, v) else p
  else d ++ [(k, v)]

/-- `d.update(new)`: CPython dict update, key by key in `new`'s order. -/
def dictUpdate (d new : AttrDict) : AttrDict :=
  new.foldl (fun acc p => dictSet acc p.1 p.2) d

/-- `d.pop(k, None)`, the removal part. -/
def dictPop (d : AttrDict) (k : String) : AttrDict :=
  d.filter fun p => ¬ p.1 = k

/-- A graph node: its id string and its attribute dict. -/
structure GNode where
  id : String
  attrs : AttrDict
deriving DecidableEq

/-- A directed edge `src → dst` with its attribute dict. -/
structure GEdge where
  src : String
  dst : String
  attrs : AttrDict
deriving DecidableEq

/-- A NetworkX `DiGraph`: nodes and edges in insertion order.  `DiGraph`
stores at most one edge per ordered node pair (the adjacency structure is a
dict of dicts), which here is the well-formedness predicate `Graph.WF`. -/
structure Graph where
  nodes : List GNode
  edges : List GEdge
deriving DecidableEq

/-- `nx.DiGraph()`. -/
def Graph.empty : Graph := ⟨[], []⟩

/-- `entity in self.graph` — node membership. -/
def Graph.hasNode (g : Graph) (n : String) : Bool :=
  g.nodes.any fun nd => nd.id = n

/-- `self.graph.add_node(n)`: a no-op when the node exists. -/
def Graph.addNode (g : Graph) (n : String) : Graph :=
  if g.hasNode n then g else { g with nodes := g.nodes ++ [⟨n, []⟩] }

/-- `self.graph.nodes[n]["type"] = t` (generalised to any key). -/
def Graph.setNodeAttr (g : Graph) (n k v : String) : Graph :=
  { g with
    nodes := g.nodes.map fun nd =>
      if nd.id = n then { nd with attrs := dictSet nd.attrs k v } else nd }

/-- Whether an edge is the one stored for the ordered pair `s → d`. -/
def isPair (s d : String) (e : GEdge) : Bool :=
  e.src = s && e.dst = d

/-- Whether the ordered pair `src → dst` already has an edge. -/
def Graph.hasEdge (g : Graph) (s d : String) : Bool :=
  g.edges.any (isPair s d)

/-- `self.graph.add_edge(s, d, **attr)` (NetworkX): the endpoints are added
if missing, and the edge's existing attribute dict is *updated* with `attr`
— a pre-existing edge keeps attributes that `attr` does not overwrite. -/
def Graph.addEdge (g : Graph) (s d : String) (attr : AttrDict) : Graph :=
  let g1 := (g.addNode s).addNode d
  if g1.hasEdge s d then
    { g1 with
      edges := g1.edges.map fun e =>
        if isPair s d e then { e with attrs := dictUpdate e.attrs attr } else e }
  else { g1 with edges := g1.edges ++ [⟨s, d, attr⟩] }

/-- `GraphService.add_fact(entity1, relationship, entity2, metadata)`
(graph_service.py lines 200–245): pops `entity1_type` / `entity2_type` out of
the metadata onto the nodes, then adds the edge with attributes
`{"relationship": relationship, **metadata}`. -/
def addFact (g : Graph) (entity1 relationship entity2 : String)
    (metadata : AttrDict) : Graph :=
  let entity1Type := dictGet metadata "entity1_type"
  let entity2Type := dictGet metadata "entity2_type"
  let metadata' := dictPop (dictPop metadata "entity1_type") "entity2_type"
  let g1 := g.addNode entity1
  let g2 := match entity1Type with
    | some t => g1.setNodeAttr entity1 "type" t
    | none => g1
  let g3 := g2.addNode entity2
  let g4 := match entity2Type with
    | some t => g3.setNodeAttr entity2 "type" t
    | none => g3
  let edgeAttrs := dictUpdate [("relationship", relationship)] metadata'
  g4.addEdge entity1 entity2 edgeAttrs

/-- The edge attributes `add_fact` writes:
`{"relationship": relationship}` updated with the metadata minus the two
entity-type keys. -/
def factEdgeAttrs (relationship : String) (metadata : AttrDict) : AttrDict :=
  dictUpdate [("relationship", relationship)]
    (dictPop (dictPop metadata "entity1_type") "entity2_type")

/-- The attribute dict of the edge `s → d`, if present. -/
def Graph.edgeAttrs (g : Graph) (s d : String) : Option AttrDict :=
  (g.edges.find? (isPair s d)).map (·.attrs)

/-- How many edges the graph holds for the ordered pair `s → d`. -/
def Graph.pairCount (g : Graph) (s d : String) : Nat :=
  (g.edges.filter (isPair s d)).length

/-- `DiGraph` structural invariant: at most one edge per ordered pair. -/
def Graph.WF (g : Graph) : Prop :=
  g.edges.Pairwise fun e1 e2 => ¬ (e1.src = e2.src ∧ e1.dst = e2.dst)

/-! ### `get_related` (graph_service.py lines 247–295) -/

/-- One record of `get_related`'s result:
`{"entity": …, "relationship": …, "connected_entity": …}`. -/
structure RelatedRecord where
  entity : String
  relationship : String
  connectedEntity : String
deriving DecidableEq, Repr

/-- The BFS state: the visited set (insertion order kept), the next frontier
being built during the current hop, and the accumulated result records. -/
structure BfsState where
  visited : List String
  frontier : List String
  related : List RelatedRecord
deriving DecidableEq

/-- `self.graph.out_edges(n, data=True)`, as `(target, relationship)` pairs
with the `data.get("relationship", "related_to")` default applied. -/
def Graph.outItems (g : Graph) (n : String) : List (String × String) :=
  (g.edges.filter fun e => e.src = n).map fun e =>
    (e.dst, (dictGet e.attrs "relationship").getD "related_to")

/-- `self.graph.in_edges(n, data=True)`, as `(source, relationship)` pairs. -/
def Graph.inItems (g : Graph) (n : String) : List (String × String) :=
  (g.edges.filter fun e => e.dst = n).map fun e =>
    (e.src, (dictGet e.attrs "relationship").getD "related_to")

/-- Process the edge list of one node: every other endpoint not yet visited
is marked visited, queued for the next hop, and recorded. -/
def visitItems (current : String) (items : List (String × String))
    (st : BfsState) : BfsState :=
  items.foldl
    (fun st item =>
      if item.1 ∈ st.visited then st
      else
        { visited := st.visited ++ [item.1]
          frontier := st.frontier ++ [item.1]
          related := st.related ++ [⟨current, item.2, item.1⟩] })
    st

/-- Process one frontier node: outgoing edges first, then incoming edges. -/
def visitNode (g : Graph) (st : BfsState) (current : String) : BfsState :=
  visitItems current (g.inItems current) (visitItems current (g.outItems current) st)

/-- One hop of the leveled BFS: expand every node of the current frontier,
starting from an empty next frontier. -/
def bfsHop (g : Graph) (frontier : List String) (visited : List String)
    (related : List RelatedRecord) : BfsState :=
  frontier.foldl (visitNode g) ⟨visited, [], related⟩

/-- `for hop in range(hops)`: run the leveled BFS. -/
def bfsLoop (g : Graph) : Nat → List String → List String → List RelatedRecord →
    List RelatedRecord
  | 0, _, _, related => related
  | hops + 1, frontier, visited, related =>
    let st := bfsHop g frontier visited related
    bfsLoop g hops st.frontier st.visited st.related

/-- `GraphService.get_related(entity, hops)`. -/
def getRelated (g : Graph) (entity : String) (hops : Nat) : List RelatedRecord :=
  if g.hasNode entity then bfsLoop g hops [entity] [entity] []
  else []

/-! ### `save` (graph_service.py lines 297–315) -/

/-- A rendering of NetworkX's `node_link_data` serialization (the exact JSON
shape is irrelevant to the claims; what matters is that `save` serializes the
graph and hands the result to the file write). -/
def nodeLinkData (g : Graph) : String :=
  let attrsStr := fun (a : AttrDict) =>
    String.intercalate ", " (a.map fun p => p.1 ++ "=" ++ p.2)
  let nodesStr := String.intercalate "; " (g.nodes.map fun n =>
    n.id ++ " [" ++ attrsStr n.attrs ++ "]")
  let edgesStr := String.intercalate "; " (g.edges.map fun e =>
    e.src ++ " -> " ++ e.dst ++ " [" ++ attrsStr e.attrs ++ "]")
  "directed; nodes: " ++ nodesStr ++ "; links: " ++ edgesStr

/-- `GraphService.save()`: serialize and write; the surrounding
`try/except` logs a failure and then **re-raises** it (`raise`), so any
write error propagates to the caller unchanged. -/
def save (g : Graph) (writeFile : String → Except String Unit) :
    Except String Unit :=
  match writeFile (nodeLinkData g) with
  | .ok _ => .ok ()
  | .error e => .error e

/-- The edge attributes written by one `add_fact` call: a fresh edge gets
`factEdgeAttrs`, an existing edge has its dict updated with it. -/
def attrsAfterFact (prior : Option AttrDict) (relationship : String)
    (metadata : AttrDict) : AttrDict :=
  match prior with
  | some a => dictUpdate a (factEdgeAttrs relationship metadata)
  | none => factEdgeAttrs relationship metadata

/-- The BFS bookkeeping invariant: the visited list is exactly the queried
entity followed by the connected entities recorded so far, and it never
holds a node twice. -/
def BfsInv (entity : String) (st : BfsState) : Prop :=
  st.visited = entity :: st.related.map RelatedRecord.connectedEntity ∧
    st.visited.Nodup

/-! ## `GraphService.extract_entities` (graph_service.py lines 94–198)

The extractor is a pure function over the message text: emails first, then
URLs, then capitalized words/phrases, all deduplicated through one shared
`seen` set in first-occurrence order. -/

/-- `takeRun p l` splits `l` into its longest prefix of elements satisfying
`p` and the rest (the `while … j += 1 … else break` scan of the source). -/
def takeRun (p : α → Bool) : List α → List α × List α
  | [] => ([], [])
  | x :: xs =>
    if p x then
      let r := takeRun p xs
      (x :: r.1, r.2)
    else ([], x :: xs)

/-- A regex word character (`\w` over the ASCII texts at hand). -/
def isWordChar (c : Char) : Bool :=
  c.isAlphanum || c = '_'

/-- `re.sub(r'[^\w]', '', word)`. -/
def cleanWord (w : List Char) : List Char :=
  w.filter isWordChar

/-- The `COMMON_WORDS` stopword set (graph_service.py lines 29–41). -/
def COMMON_WORDS : List (List Char) :=
  (["the", "a", "an", "this", "that", "these", "those",
    "i", "you", "he", "she", "it", "we", "they",
    "my", "your", "his", "her", "its", "our", "their",
    "is", "are", "was", "were", "be", "been", "being",
    "have", "has", "had", "do", "does", "did",
    "will", "would", "could", "should", "may", "might", "must",
    "and", "or", "but", "if", "then", "so", "as", "of", "for", "with",
    "to", "from", "in", "on", "at", "by", "about",
    "what", "when", "where", "why", "how", "who", "which",
    "there", "here", "now", "just", "also", "very",
    "yes", "no", "not", "only", "all", "any", "some", "every"] :
      List String).map String.data

/-- The candidate test of the source scan: the cleaned word has length ≥ 2,
starts with an uppercase letter, and its lowercase form is not a stopword.
(`headD ' '` stands for `clean_word[0]`; the length guard makes the default
unreachable, exactly as Python's short-circuit does.) -/
def qualifiesWord (w : List Char) : Bool :=
  decide (2 ≤ w.length) && (w.headD ' ').isUpper &&
    ! COMMON_WORDS.contains (w.map Char.toLower)

/-- An extracted entity `{"type": …, "value": …}`. -/
structure Entity where
  etype : List Char
  value : List Char
deriving DecidableEq, Repr

/-- Sentence terminators of `re.split(r'[.!?]+\s*', content)`. -/
def isSentenceTerm (c : Char) : Bool :=
  c = '.' || c = '!' || c = '?'

/-- `re.split(r'[.!?]+\s*', content)`: each separator is a maximal run of
terminators followed by a maximal run of whitespace; the pieces between
separators are returned, including empty pieces.  The remaining text strictly
shrinks at every step, so the structural `fuel` parameter (instantiated with
`content.length + 1`) never runs out. -/
def splitSentencesGo (fuel : Nat) (cur : List Char) (l : List Char) :
    List (List Char) :=
  match fuel, l with
  | _, [] => [cur.reverse]
  | 0, _ => [cur.reverse]
  | fuel + 1, c :: rest =>
    if isSentenceTerm c then
      cur.reverse ::
        splitSentencesGo fuel []
          ((rest.dropWhile isSentenceTerm).dropWhile isPySpace)
    else splitSentencesGo fuel (c :: cur) rest

def splitSentencesPy (content : List Char) : List (List Char) :=
  splitSentencesGo (content.length + 1) [] content

/-- Python `sentence.split()`: split on whitespace runs, no empty tokens. -/
def splitWs (l : List Char) : List (List Char) :=
  (l.splitOnP isPySpace).filter fun t => ¬ t = []

/-- The capitalized-word scan of the source (lines 144–196): walk the tokens
of one sentence; a qualifying token opens a run of consecutive qualifying
tokens, a run of length ≥ 2 becomes one multi-word entity, a lone qualifying
token is an entity unless it is the sentence's first token. -/
def scanWords (fuel : Nat) (words : List (List Char)) (isFirst : Bool)
    (ents : List Entity) (seen : List (List Char)) :
    List Entity × List (List Char) :=
  match fuel, words with
  | _, [] => (ents, seen)
  | 0, _ => (ents, seen)
  | fuel + 1, w :: rest =>
    let cw := cleanWord w
    if qualifiesWord cw then
      let run := takeRun (fun nw => qualifiesWord (cleanWord nw)) rest
      if run.1 ≠ [] then
        let value := List.intercalate [' '] (cw :: run.1.map cleanWord)
        if value ∈ seen then scanWords fuel run.2 false ents seen
        else
          scanWords fuel run.2 false (ents ++ [⟨"entity".data, value⟩])
            (seen ++ [value])
      else if ¬ isFirst then
        if cw ∈ seen then scanWords fuel rest false ents seen
        else scanWords fuel rest false (ents ++ [⟨"entity".data, cw⟩]) (seen ++ [cw])
      else scanWords fuel rest false ents seen
    else scanWords fuel rest false ents seen

/-! ### The email and URL scans

Source regexes (lines 117 and 125):
`r'\b[A-Za-z0-9._%+-]+@[A-Za-z0-9.-]+\.[A-Z|a-z]{2,}\b'` and
`r'https?://[^\s<>"\')\]]+(?<![.,;:!?])'`, found with `re.finditer`
(left-to-right, non-overlapping).  The scans below realise the regex engine's
behaviour on these patterns: greedy runs, backtracking, and the word-boundary
checks are resolved into explicit maximal-run and adjacent-character tests. -/

def isEmailLocalChar (c : Char) : Bool :=
  c.isAlphanum || c = '.' || c = '_' || c = '%' || c = '+' || c = '-'

def isEmailDomainChar (c : Char) : Bool :=
  c.isAlphanum || c = '.' || c = '-'

/-- Match `[A-Za-z0-9.-]+\.[A-Z|a-z]{2,}\b` against a prefix of the maximal
domain run after `@`, returning the matched length.  Backtracking picks the
rightmost dot whose following maximal letter run has length ≥ 2 and ends at a
word boundary (the run's end, or a following non-word character; a shorter
letter prefix is never boundary-final, so only the maximal letter run can
match). -/
def emailDomainMatchLen (run : List Char) : Option Nat :=
  let tailLen := fun (p : Nat) => ((run.drop (p + 1)).takeWhile Char.isAlpha).length
  let ok := fun (p : Nat) =>
    decide (1 ≤ p) && (run.getD p ' ' = '.') &&
      decide (2 ≤ tailLen p) &&
      (decide (p + 1 + tailLen p = run.length) ||
        ! isWordChar (run.getD (p + 1 + tailLen p) ' '))
  match ((List.range run.length).filter ok).max? with
  | some p => some (p + 1 + tailLen p)
  | none => none

/-- The scan for email matches.  `revBefore` is the already-scanned text,
reversed, clipped at the end of the previous match (the local part of a match
cannot reach into the previous match, and `\b` holds at the start of the
longest backward run of local characters once leading non-word characters are
dropped). -/
def findEmailsGo (fuel : Nat) (revBefore : List Char) (l : List Char) :
    List (List Char) :=
  match fuel, l with
  | _, [] => []
  | 0, _ => []
  | fuel + 1, c :: rest =>
    if c = '@' then
      let localPart :=
        ((revBefore.takeWhile isEmailLocalChar).reverse).dropWhile fun ch =>
          ¬ isWordChar ch
      let run := takeRun isEmailDomainChar rest
      match if localPart = [] then none else emailDomainMatchLen run.1 with
      | some n =>
        (localPart ++ '@' :: (run.1.take n)) ::
          findEmailsGo fuel ((run.1.take n).reverse ++ '@' :: revBefore)
            ((run.1.drop n) ++ run.2)
      | none => findEmailsGo fuel ('@' :: revBefore) rest
    else findEmailsGo fuel (c :: revBefore) rest

/-- `re.finditer` for the email pattern. -/
def findEmails (content : List Char) : List (List Char) :=
  findEmailsGo (content.length + 1) [] content

def isUrlBodyChar (c : Char) : Bool :=
  ! (isPySpace c || c = '<' || c = '>' || c = '"' || c = Char.ofNat 39 ||
      c = ')' || c = ']')

def isTrailPunct (c : Char) : Bool :=
  c = '.' || c = ',' || c = ';' || c = ':' || c = '!' || c = '?'

/-- The candidate URL match starting at the head of `l`, whose protocol part
has length `pre`: the maximal run of body characters after the protocol, with
the lookbehind `(?<![.,;:!?])` backtracking away trailing punctuation. -/
def urlKept (l : List Char) (pre : Nat) : List Char :=
  let body := (takeRun isUrlBodyChar (l.drop pre)).1
  ((l.take pre ++ body).reverse.dropWhile isTrailPunct).reverse

/-- The scan for URL matches: at each occurrence of `http://` or `https://`,
take the maximal-run candidate; the body (`[^…]+`) must stay non-empty after
the lookbehind backtracks, and the scan resumes after the match. -/
def findUrlsGo (fuel : Nat) (l : List Char) : List (List Char) :=
  match fuel, l with
  | _, [] => []
  | 0, _ => []
  | fuel + 1, c :: rest =>
    if (c :: rest).take 8 = "https://".data then
      if (takeRun isUrlBodyChar ((c :: rest).drop 8)).1 = [] ∨
          (urlKept (c :: rest) 8).length ≤ 8 then
        findUrlsGo fuel rest
      else
        urlKept (c :: rest) 8 ::
          findUrlsGo fuel ((c :: rest).drop (urlKept (c :: rest) 8).length)
    else if (c :: rest).take 7 = "http://".data then
      if (takeRun isUrlBodyChar ((c :: rest).drop 7)).1 = [] ∨
          (urlKept (c :: rest) 7).length ≤ 7 then
        findUrlsGo fuel rest
      else
        urlKept (c :: rest) 7 ::
          findUrlsGo fuel ((c :: rest).drop (urlKept (c :: rest) 7).length)
    else findUrlsGo fuel rest

/-- `re.finditer` for the URL pattern. -/
def findUrls (content : List Char) : List (List Char) :=
  findUrlsGo (content.length + 1) content

/-- `GraphService.extract_entities(content)`: emails, then URLs, then the
capitalized-word scan per sentence, all sharing one `seen` set. -/
def extractEntities (content : List Char) : List Entity :=
  if content = [] ∨ pyStrip content = [] then []
  else
    let st0 : List Entity × List (List Char) := ([], [])
    let st1 := (findEmails content).foldl
      (fun st em =>
        if em ∈ st.2 then st else (st.1 ++ [⟨"email".data, em⟩], st.2 ++ [em]))
      st0
    let st2 := (findUrls content).foldl
      (fun st u =>
        if u ∈ st.2 then st else (st.1 ++ [⟨"url".data, u⟩], st.2 ++ [u]))
      st1
    let st3 := (splitSentencesPy content).foldl
      (fun st s =>
        if pyStrip s = [] then st
        else scanWords ((splitWs s).length + 1) (splitWs s) true st.1 st.2)
      st2
    st3.1

/-! ## The chat turn (`backend/routers/chat.py`)

### The `stream_chat` call signature

`send_message` builds the prompt, then streams through the async generator
`generate()`.  Its first statement iterates
`llm.stream_chat(llm_messages, model=llm_model, temperature=persona_temperature)`
(chat.py lines 356–358), while `LLMService.stream_chat` is declared as
`stream_chat(self, messages, model="default")` (llm_service.py lines 14–18)
with no `temperature` parameter and no `**kwargs`.  Python keyword binding is
modelled below: a call binds only if every keyword names a declared
parameter. -/

/-- The declared parameter names of `LLMService.stream_chat` after `self`. -/
def streamChatParams : List String := ["messages", "model"]

/-- The keyword arguments of the `stream_chat` call inside `generate()`
(`llm_messages` is passed positionally). -/
def sendMessageStreamChatKeywords : List String := ["model", "temperature"]

/-- Python call binding for keyword arguments: each keyword must name a
declared parameter, otherwise the call raises `TypeError`. -/
def keywordsBind (params keywords : List String) : Bool :=
  keywords.all params.contains

/-! ### The `generate()` event trace (chat.py lines 353–414)

The body of the async generator is straight-line code; its observable
behaviour in one turn is the ordered sequence of events below.  Content
fragments are yielded to the transport while being accumulated into
`full_response`; after the stream is exhausted the metadata suffix is
yielded; only then are the assistant message persisted, the two messages
embedded (when a memory service was constructed), and the graph facts added
and saved (when a graph service was constructed). -/

inductive TurnEvent where
  /-- a content chunk yielded to the HTTP stream -/
  | contentFrag (s : List Char)
  /-- the `__META__` suffix yielded after the last content chunk -/
  | metaFrag (s : List Char)
  /-- `chat.add_message(conversation_id, "assistant", full_response)` -/
  | saveAssistantMessage (conversationId : Nat) (content : List Char)
  /-- `memory_service.embed_message(message_id, content, …)` -/
  | embedMessage (messageId : Nat) (role : List Char) (content : List Char)
  /-- `graph_service.add_fact(entity1, relationship, entity2)` -/
  | addFactCall (entity1 relationship entity2 : List Char)
  /-- `graph_service.save()` -/
  | graphSaveCall
deriving DecidableEq, Repr

/-- The inputs that determine one run of `generate()`. -/
structure GenerateEnv where
  /-- the content fragments produced by the generation stream -/
  llmContents : List (List Char)
  conversationId : Nat
  /-- id of the persisted user message (`user_msg.id`) -/
  userMessageId : Nat
  /-- id the assistant message receives when persisted -/
  assistantMessageId : Nat
  /-- the user's message text (`request.content`) -/
  userContent : List Char
  /-- `memory_service is not None` -/
  memoryServicePresent : Bool
  /-- `graph_service is not None` -/
  graphServicePresent : Bool
  generationTimeMs : Nat
  /-- `llm.last_usage`: prompt, completion and total token counts -/
  usage : Option (Nat × Nat × Nat)

/-- Decimal rendering of an int interpolated into an f-string / JSON. -/
def natChars (n : Nat) : List Char :=
  (Nat.repr n).data

/-- `json.dumps(meta)` for the metadata dict. -/
def renderMetaJson (env : GenerateEnv) : List Char :=
  "\x7b\"generation_time_ms\": ".data ++ natChars env.generationTimeMs ++
    (match env.usage with
     | some (p, c, t) =>
        ", \"prompt_tokens\": ".data ++ natChars p ++
          ", \"completion_tokens\": ".data ++ natChars c ++
          ", \"total_tokens\": ".data ++ natChars t
     | none => []) ++
    "\x7d".data

/-- The metadata fragment `f"\n\n__META__{json.dumps(meta)}"`. -/
def metaFragmentStr (env : GenerateEnv) : List Char :=
  "\n\n__META__".data ++ renderMetaJson env

/-- `full_response`: the chunks accumulated with `+=` in stream order. -/
def fullResponse (env : GenerateEnv) : List Char :=
  env.llmContents.foldl (· ++ ·) []

/-- Everything `generate()` does after the stream is exhausted and the
metadata fragment is emitted, in program order: persist the assistant
message, embed the user and assistant messages when a memory service exists,
then add one `mentioned_in` fact per entity of the response and save the
graph when a graph service exists.  (Each block is guarded by `try/except`,
so a failure inside one call never reorders or cancels the events before
it.) -/
def generatePersistTail (env : GenerateEnv) : List TurnEvent :=
  [TurnEvent.saveAssistantMessage env.conversationId (fullResponse env)] ++
    (if env.memoryServicePresent then
      [TurnEvent.embedMessage env.userMessageId "user".data env.userContent,
       TurnEvent.embedMessage env.assistantMessageId "assistant".data
         (fullResponse env)]
    else []) ++
    (if env.graphServicePresent then
      ((extractEntities (fullResponse env)).map fun e =>
        TurnEvent.addFactCall e.value "mentioned_in".data
          ("conversation_".data ++ natChars env.conversationId)) ++
        [TurnEvent.graphSaveCall]
    else [])

/-- The full event trace of `generate()`: each stream chunk is yielded as it
arrives, the metadata fragment follows the last chunk, and the persistence
calls follow the metadata fragment. -/
def generateTrace (env : GenerateEnv) : List TurnEvent :=
  (env.llmContents.map TurnEvent.contentFrag ++
    [TurnEvent.metaFrag (metaFragmentStr env)]) ++
    generatePersistTail env

/-- Is the event a content fragment of the generation stream? -/
def TurnEvent.isContentFrag : TurnEvent → Bool
  | .contentFrag _ => true
  | _ => false

/-- Is the event a persistence call (message store, vector store, graph)? -/
def TurnEvent.isPersistenceCall : TurnEvent → Bool
  | .saveAssistantMessage _ _ => true
  | .embedMessage _ _ _ => true
  | .addFactCall _ _ _ => true
  | .graphSaveCall => true
  | .contentFrag _ => false
  | .metaFrag _ => false

/-! ## Theorems -/

/-- Any cut position that still lies inside the text is strictly past the
window midpoint: the backward boundary search only accepts breaks past
`start + chunk_size // 2`, and the hard cut is `start + chunk_size`. -/
theorem chunkStepEnd_midpoint_lt (text : List Char) (start chunkSize : Nat)
    (hcs : 1 ≤ chunkSize)
    (hlt : chunkStepEnd text start chunkSize < text.length) :
    start + chunkSize / 2 + 1 ≤ chunkStepEnd text start chunkSize := by
  simp only [chunkStepEnd] at hlt ⊢
  split_ifs at * with h0 h1 h2 <;> omega

/-- Fuel sufficiency for the chunking loop: whenever the overlap is below half
the chunk size, `text.length - start` strictly decreases each iteration, so
`text.length - start < fuel` iterations suffice. -/
theorem chunkTextAux_isSome (text : List Char) (chunkSize overlap : Nat)
    (hov : overlap < chunkSize / 2) :
    ∀ (fuel start : Nat) (chunks : List (List Char)),
      text.length - start < fuel →
      (chunkTextAux text chunkSize overlap fuel start chunks).isSome := by
  intro fuel
  induction fuel with
  | zero => intro start chunks h; omega
  | succ n ih =>
    intro start chunks h
    rw [chunkTextAux]
    by_cases hs : start < text.length
    · simp only [hs, if_true]
      by_cases he : chunkStepEnd text start chunkSize < text.length
      · have hmid := chunkStepEnd_midpoint_lt text start chunkSize (by omega) he
        simp only [he, if_true]
        exact ih _ _ (by omega)
      · simp only [he, if_false]
        exact ih _ _ (by omega)
    · simp [hs]

/-- Claim C9: `chunk_text` terminates for every input text whenever
`overlap < chunk_size // 2`: each loop iteration advances the window start by
at least `chunk_size // 2 − overlap ≥ 1`, so the loop runs at most
`text.length` iterations and the fuel `text.length + 1` always suffices. -/
theorem chunkText_terminates (text : List Char) (chunkSize overlap : Nat)
    (hov : overlap < chunkSize / 2) :
    (chunkText text chunkSize overlap).isSome := by
  unfold chunkText
  split
  · rfl
  · exact chunkTextAux_isSome text chunkSize overlap hov _ 0 [] (by omega)

/-- Witness for C9 at the source constants: `CHUNK_OVERLAP = 100` is below
`CHUNK_SIZE // 2 = 1000`, and chunking a concrete two-character text
terminates. -/
theorem chunkText_terminates_witness :
    CHUNK_OVERLAP < CHUNK_SIZE / 2 ∧
      (chunkText ['a', 'b'] CHUNK_SIZE CHUNK_OVERLAP).isSome :=
  ⟨by decide, chunkText_terminates ['a', 'b'] CHUNK_SIZE CHUNK_OVERLAP (by decide)⟩

/-- Counterexample to claim C7 as stated: the whitespace-only text `" "` is
non-empty and shorter than the chunk size, but `chunk_text` returns `[]`
(the stripped chunk is empty and `if chunk:` drops it), not one chunk equal
to the trimmed input. -/
theorem chunkText_whitespace_counterexample :
    chunkText [' '] CHUNK_SIZE CHUNK_OVERLAP = some [] ∧
      pyStrip [' '] = [] ∧
      ¬ chunkText [' '] CHUNK_SIZE CHUNK_OVERLAP = some [pyStrip [' ']] := by
  refine ⟨by decide, by decide, ?_⟩
  intro h
  rw [show chunkText [' '] CHUNK_SIZE CHUNK_OVERLAP = some [] from by decide] at h
  simp at h

/-- Claim C7 (amended): `chunk_text("")` returns `[]`, and for every text that
is shorter than the chunk size and whose *stripped* form is non-empty,
`chunk_text` returns exactly one chunk equal to the stripped input.
(Whitespace-only text instead yields `[]`.) -/
theorem chunkText_short_text (text : List Char) (chunkSize overlap : Nat) :
    chunkText [] chunkSize overlap = some [] ∧
      (text ≠ [] → text.length < chunkSize → pyStrip text ≠ [] →
        chunkText text chunkSize overlap = some [pyStrip text]) := by
  refine ⟨by simp [chunkText], ?_⟩
  intro hne hlen hstrip
  have hlen1 : 1 ≤ text.length := by
    cases text with
    | nil => exact absurd rfl hne
    | cons a l => simp
  unfold chunkText
  simp only [hne, if_false]
  have hend : chunkStepEnd text 0 chunkSize = chunkSize := by
    unfold chunkStepEnd
    simp only [Nat.zero_add]
    rw [if_neg (by omega)]
  obtain ⟨n, hn⟩ : ∃ n, text.length = n + 1 := ⟨text.length - 1, by omega⟩
  rw [hn, chunkTextAux]
  rw [if_pos (by omega)]
  simp only [hend]
  rw [if_neg (by omega)]
  have hslice : pySlice text 0 chunkSize = text := by
    unfold pySlice
    rw [List.take_of_length_le (by omega), List.drop_zero]
  rw [hslice, if_pos hstrip, chunkTextAux]
  rw [if_neg (by omega)]
  simp

/-- Witness for C7 (amended) at the concrete text `"hi"`. -/
theorem chunkText_short_text_witness :
    (('h' :: ['i'] : List Char) ≠ [] ∧ ('h' :: ['i'] : List Char).length < CHUNK_SIZE ∧
        pyStrip ('h' :: ['i']) ≠ []) ∧
      chunkText ('h' :: ['i']) CHUNK_SIZE CHUNK_OVERLAP = some [pyStrip ('h' :: ['i'])] :=
  ⟨⟨by decide, by decide, by decide⟩,
    (chunkText_short_text ('h' :: ['i']) CHUNK_SIZE CHUNK_OVERLAP).2
      (by decide) (by decide) (by decide)⟩

/-- Claim C8: for a stored document with `chunk_count = n > 0` and the vector
store reachable, `delete_document` issues deletions for exactly the `n` ids
`doc_<document_id>_chunk_0 … doc_<document_id>_chunk_{n-1}`, reconstructed
solely from `document_id` and the range `[0, chunk_count)`, and reports
success. -/
theorem deleteDocument_issues_chunk_ids (document : Option DocumentRow)
    (d : DocumentRow) (hdoc : document = some d) (hn : 0 < d.chunkCount) :
    (deleteDocument document true).1 = chunkIdsFor d.id d.chunkCount ∧
      (deleteDocument document true).1.length = d.chunkCount ∧
      (deleteDocument document true).2 = true := by
  subst hdoc
  simp [deleteDocument, hn, chunkIdsFor]

/-- Witness for C8 at `chunk_count = 3`: exactly the three ids
`doc_7_chunk_0`, `doc_7_chunk_1`, `doc_7_chunk_2` are issued. -/
theorem deleteDocument_issues_chunk_ids_witness :
    (deleteDocument (some ⟨7, 3⟩) true).1 = chunkIdsFor 7 3 ∧
      (deleteDocument (some ⟨7, 3⟩) true).1.length = 3 ∧
      (deleteDocument (some ⟨7, 3⟩) true).2 = true :=
  deleteDocument_issues_chunk_ids (some ⟨7, 3⟩) ⟨7, 3⟩ rfl (by decide)

/-! ### Lemmas about `add_fact` -/

@[simp]
theorem isPair_set_attrs (s d : String) (e : GEdge) (a : AttrDict) :
    isPair s d { e with attrs := a } = isPair s d e := rfl

theorem edges_addNode (g : Graph) (n : String) : (g.addNode n).edges = g.edges := by
  unfold Graph.addNode; split <;> rfl

theorem edges_setNodeAttr (g : Graph) (n k v : String) :
    (g.setNodeAttr n k v).edges = g.edges := rfl

theorem hasEdge_of_edges_eq (g h : Graph) (heq : g.edges = h.edges) (s d : String) :
    g.hasEdge s d = h.hasEdge s d := by
  unfold Graph.hasEdge; rw [heq]

theorem find?_map_updatePair (s d : String) (attr : AttrDict) :
    ∀ l : List GEdge,
      (l.map fun e =>
          if isPair s d e then { e with attrs := dictUpdate e.attrs attr } else e).find?
          (isPair s d)
        = (l.find? (isPair s d)).map fun e => { e with attrs := dictUpdate e.attrs attr }
  | [] => rfl
  | a :: t => by
    by_cases h : isPair s d a
    · simp [h]
    · have ha : ¬ (isPair s d a = true) := h
      rw [List.map_cons, if_neg h, List.find?_cons_of_neg _ ha,
        List.find?_cons_of_neg _ ha]
      exact find?_map_updatePair s d attr t

theorem filter_map_updatePair (s d : String) (attr : AttrDict) :
    ∀ l : List GEdge,
      ((l.map fun e =>
          if isPair s d e then { e with attrs := dictUpdate e.attrs attr } else e).filter
          (isPair s d)).length
        = (l.filter (isPair s d)).length
  | [] => rfl
  | a :: t => by
    by_cases h : isPair s d a
    · simp only [List.map_cons, if_pos h, List.filter_cons, isPair_set_attrs, h,
        if_true, List.length_cons]
      exact congrArg Nat.succ (filter_map_updatePair s d attr t)
    · simp only [List.map_cons, if_neg h, List.filter_cons, h, Bool.false_eq_true,
        if_false]
      exact filter_map_updatePair s d attr t

/-- The pair key of each edge is untouched by an attribute update. -/
theorem WF_map_updatePair (s d : String) (attr : AttrDict) {l : List GEdge}
    (h : l.Pairwise fun e1 e2 => ¬ (e1.src = e2.src ∧ e1.dst = e2.dst)) :
    (l.map fun e =>
        if isPair s d e then { e with attrs := dictUpdate e.attrs attr } else e).Pairwise
      fun e1 e2 => ¬ (e1.src = e2.src ∧ e1.dst = e2.dst) := by
  rw [List.pairwise_map]
  refine h.imp_of_mem ?_
  intro e1 e2 _ _ hne
  split <;> split <;> simpa using hne

/-- A well-formed edge list holds at most one edge per ordered pair. -/
theorem filterPair_length_le_one (s d : String) :
    ∀ l : List GEdge,
      (l.Pairwise fun e1 e2 => ¬ (e1.src = e2.src ∧ e1.dst = e2.dst)) →
      (l.filter (isPair s d)).length ≤ 1
  | [], _ => by simp
  | a :: t, h => by
    rw [List.pairwise_cons] at h
    by_cases ha : isPair s d a
    · have hta : ∀ b ∈ t, ¬ isPair s d b = true := by
        intro b hb hpb
        have h1 : a.src = s ∧ a.dst = d := by simpa [isPair] using ha
        have h2 : b.src = s ∧ b.dst = d := by simpa [isPair] using hpb
        exact h.1 b hb ⟨h1.1.trans h2.1.symm, h1.2.trans h2.2.symm⟩
      have : t.filter (isPair s d) = [] := List.filter_eq_nil_iff.mpr hta
      simp [List.filter_cons, ha, this]
    · simp only [List.filter_cons, ha, Bool.false_eq_true, if_false]
      exact filterPair_length_le_one s d t h.2

theorem filterPair_length_pos_of_hasEdge {g : Graph} {s d : String}
    (h : g.hasEdge s d = true) : 1 ≤ (g.edges.filter (isPair s d)).length := by
  unfold Graph.hasEdge at h
  obtain ⟨e, he, hpe⟩ := List.any_eq_true.mp h
  have hmem : e ∈ g.edges.filter (isPair s d) := List.mem_filter.mpr ⟨he, hpe⟩
  exact List.length_pos_of_mem hmem

theorem addFact_edges (g : Graph) (e1 rel e2 : String) (m : AttrDict) :
    (addFact g e1 rel e2 m).edges =
      if g.hasEdge e1 e2 then
        g.edges.map fun e =>
          if isPair e1 e2 e then
            { e with attrs := dictUpdate e.attrs (factEdgeAttrs rel m) } else e
      else g.edges ++ [⟨e1, e2, factEdgeAttrs rel m⟩] := by
  unfold addFact Graph.addEdge factEdgeAttrs
  cases dictGet m "entity1_type" <;> cases dictGet m "entity2_type" <;>
    simp only [edges_addNode, edges_setNodeAttr] <;>
    rw [hasEdge_of_edges_eq _ g (by simp [edges_addNode, edges_setNodeAttr])] <;>
    split <;> rfl

/-- One `add_fact` call: afterwards the pair `entity1 → entity2` holds exactly
one edge, its attributes are the prior attributes (if any) updated per key
with `{"relationship": rel, **metadata-minus-type-keys}`, and well-formedness
is preserved. -/
theorem addFact_step (g : Graph) (e1 rel e2 : String) (m : AttrDict) (hw : g.WF) :
    (addFact g e1 rel e2 m).edgeAttrs e1 e2 =
        some (attrsAfterFact (g.edgeAttrs e1 e2) rel m) ∧
      (addFact g e1 rel e2 m).pairCount e1 e2 = 1 ∧
      (addFact g e1 rel e2 m).WF := by
  have hedges := addFact_edges g e1 rel e2 m
  by_cases h : g.hasEdge e1 e2
  · rw [if_pos h] at hedges
    refine ⟨?_, ?_, ?_⟩
    · unfold Graph.edgeAttrs
      rw [hedges, find?_map_updatePair]
      obtain ⟨e, he, hpe⟩ := List.any_eq_true.mp h
      obtain ⟨e0, hfind⟩ : ∃ e0, g.edges.find? (isPair e1 e2) = some e0 := by
        cases hf : g.edges.find? (isPair e1 e2) with
        | none => exact absurd hpe (by simpa using List.find?_eq_none.mp hf e he)
        | some e0 => exact ⟨e0, rfl⟩
      rw [hfind]
      simp [attrsAfterFact, Graph.edgeAttrs, hfind]
    · unfold Graph.pairCount
      rw [hedges, filter_map_updatePair]
      have hle := filterPair_length_le_one e1 e2 g.edges hw
      have hge := filterPair_length_pos_of_hasEdge h
      omega
    · unfold Graph.WF
      rw [hedges]
      exact WF_map_updatePair e1 e2 _ hw
  · rw [if_neg h] at hedges
    have hnone : g.edges.find? (isPair e1 e2) = none := by
      rw [List.find?_eq_none]
      intro e he hpe
      exact h (List.any_eq_true.mpr ⟨e, he, hpe⟩)
    have hnil : g.edges.filter (isPair e1 e2) = [] := by
      rw [List.filter_eq_nil_iff]
      intro e he hpe
      exact h (List.any_eq_true.mpr ⟨e, he, hpe⟩)
    refine ⟨?_, ?_, ?_⟩
    · unfold Graph.edgeAttrs
      rw [hedges, List.find?_append, hnone]
      simp [attrsAfterFact, Graph.edgeAttrs, hnone, List.find?, isPair]
    · unfold Graph.pairCount
      rw [hedges, List.filter_append, hnil]
      simp [List.filter, isPair]
    · unfold Graph.WF
      rw [hedges, List.pairwise_append]
      refine ⟨hw, by simp, ?_⟩
      intro a ha b hb
      simp only [List.mem_singleton] at hb
      subst hb
      intro hab
      apply h
      refine List.any_eq_true.mpr ⟨a, ha, ?_⟩
      simp only [isPair, hab.1, hab.2]
      simp

/-- Counterexample to claim C3 as stated: after
`add_fact("a", "r1", "b", {"color": "red"})` followed by
`add_fact("a", "r2", "b", {})`, the edge `a → b` still carries
`color = red`, although the claimed attribute set
`{"relationship": "r2"} ∪ {}` has no `color` key: NetworkX's `add_edge`
*updates* the existing attribute dict, so attributes of the earlier call
that the later call does not rewrite survive. -/
theorem addFact_overwrite_counterexample :
    dictGet
        (((addFact (addFact Graph.empty "a" "r1" "b" [("color", "red")])
            "a" "r2" "b" []).edgeAttrs "a" "b").getD []) "color" = some "red" ∧
      dictGet (factEdgeAttrs "r2" []) "color" = none ∧
      ¬ (addFact (addFact Graph.empty "a" "r1" "b" [("color", "red")])
            "a" "r2" "b" []).edgeAttrs "a" "b" = some (factEdgeAttrs "r2" []) := by
  refine ⟨by decide, by decide, by decide⟩

/-- Claim C3 (amended): for every well-formed graph state, after
`add_fact(src, rel1, dst, m1)` then `add_fact(src, rel2, dst, m2)` the graph
holds exactly one edge `src → dst`; its attributes are the attributes the
pair had before the calls (if any), updated per key with
`{"relationship": rel1} ∪ m1-minus-entity-type-keys`, then per key with
`{"relationship": rel2} ∪ m2-minus-entity-type-keys`.  The relationship key
is rewritten by every call (last relation wins) but earlier metadata keys
that the second call does not mention persist; there is no multi-edge
history. -/
theorem addFact_last_write_wins (g : Graph) (src rel1 rel2 dst : String)
    (m1 m2 : AttrDict) (hw : g.WF) :
    (addFact (addFact g src rel1 dst m1) src rel2 dst m2).pairCount src dst = 1 ∧
      (addFact (addFact g src rel1 dst m1) src rel2 dst m2).edgeAttrs src dst =
        some (dictUpdate (attrsAfterFact (g.edgeAttrs src dst) rel1 m1)
          (factEdgeAttrs rel2 m2)) := by
  obtain ⟨h1a, _, h1w⟩ := addFact_step g src rel1 dst m1 hw
  obtain ⟨h2a, h2c, _⟩ := addFact_step (addFact g src rel1 dst m1) src rel2 dst m2 h1w
  refine ⟨h2c, ?_⟩
  rw [h2a, h1a]
  rfl

/-- Witness for C3 (amended) on the empty graph with
`m1 = {"color": "red"}`, `m2 = {}`. -/
theorem addFact_last_write_wins_witness :
    (addFact (addFact Graph.empty "a" "r1" "b" [("color", "red")])
          "a" "r2" "b" []).pairCount "a" "b" = 1 ∧
      (addFact (addFact Graph.empty "a" "r1" "b" [("color", "red")])
          "a" "r2" "b" []).edgeAttrs "a" "b" =
        some (dictUpdate
          (attrsAfterFact (Graph.empty.edgeAttrs "a" "b") "r1" [("color", "red")])
          (factEdgeAttrs "r2" [])) :=
  addFact_last_write_wins Graph.empty "a" "r1" "r2" "b" [("color", "red")] []
    List.Pairwise.nil

/-- Claim C4: if serializing/writing the graph file fails inside `save()`,
the error propagates to `save()`'s caller unchanged — a write failure is
never swallowed. -/
theorem save_propagates_write_failure (g : Graph)
    (writeFile : String → Except String Unit) (err : String)
    (h : writeFile (nodeLinkData g) = .error err) :
    save g writeFile = .error err := by
  unfold save
  rw [h]

/-- Witness for C4: a write that fails with `disk full` makes `save` fail
with `disk full`. -/
theorem save_propagates_write_failure_witness :
    save Graph.empty (fun _ => .error "disk full") = .error "disk full" :=
  save_propagates_write_failure Graph.empty (fun _ => .error "disk full")
    "disk full" rfl

/-! ### `get_related`: BFS behaviour and invariants -/

/-- Claim C5: `get_related` is a leveled BFS over both edge directions.  On
the graph with exactly the edges `A→B("knows")` and `B→C("knows")`,
one hop from `A` returns exactly the record `(A, knows, B)` and two hops
exactly `(A, knows, B)` then `(B, knows, C)`; on the graph with only the
edge `B→A`, one hop from `A` follows the incoming edge and returns a record
with connected entity `B`. -/
theorem getRelated_bfs_examples :
    getRelated (addFact (addFact Graph.empty "A" "knows" "B" []) "B" "knows" "C" [])
        "A" 1 = [⟨"A", "knows", "B"⟩] ∧
      getRelated (addFact (addFact Graph.empty "A" "knows" "B" []) "B" "knows" "C" [])
        "A" 2 = [⟨"A", "knows", "B"⟩, ⟨"B", "knows", "C"⟩] ∧
      ∃ r ∈ getRelated (addFact Graph.empty "B" "knows" "A" []) "A" 1,
        r.connectedEntity = "B" := by
  refine ⟨by decide, by decide, ⟨⟨"A", "knows", "B"⟩, by decide, rfl⟩⟩

theorem visitItems_inv (entity current : String) :
    ∀ (items : List (String × String)) (st : BfsState),
      BfsInv entity st → BfsInv entity (visitItems current items st)
  | [], _, h => h
  | item :: items, st, h => by
    rw [visitItems, List.foldl_cons]
    by_cases hmem : item.1 ∈ st.visited
    · simpa only [if_pos hmem] using visitItems_inv entity current items st h
    · rw [if_neg hmem]
      refine visitItems_inv entity current items _ ⟨?_, ?_⟩
      · simp only [List.map_append, h.1, List.map_cons, List.map_nil]
        rfl
      · simp only [List.nodup_append, h.2, List.nodup_cons]
        simp [hmem]

theorem visitNode_inv (entity : String) (g : Graph) (st : BfsState)
    (current : String) (h : BfsInv entity st) :
    BfsInv entity (visitNode g st current) :=
  visitItems_inv entity current _ _ (visitItems_inv entity current _ _ h)

theorem bfsHop_inv (entity : String) (g : Graph) :
    ∀ (frontier : List String) (st : BfsState), BfsInv entity st →
      BfsInv entity (frontier.foldl (visitNode g) st)
  | [], _, h => h
  | n :: frontier, st, h =>
    bfsHop_inv entity g frontier (visitNode g st n) (visitNode_inv entity g st n h)

theorem bfsLoop_inv (entity : String) (g : Graph) :
    ∀ (hops : Nat) (frontier visited : List String)
      (related : List RelatedRecord),
      BfsInv entity ⟨visited, frontier, related⟩ →
      (entity :: (bfsLoop g hops frontier visited related).map
          RelatedRecord.connectedEntity).Nodup
  | 0, _, visited, related, h => by
    rw [bfsLoop]
    have hv : visited = entity :: related.map RelatedRecord.connectedEntity := h.1
    have := h.2
    rwa [hv] at this
  | hops + 1, frontier, visited, related, h => by
    rw [bfsLoop]
    have hstep : BfsInv entity (bfsHop g frontier visited related) :=
      bfsHop_inv entity g frontier ⟨visited, [], related⟩ ⟨h.1, h.2⟩
    exact bfsLoop_inv entity g hops _ _ _ hstep

/-- Claim C10: `get_related` never reports the queried entity as a connected
entity, and no node is reported as a connected entity more than once: the
visited set admits each node into the result at most once and the queried
entity is visited from the start. -/
theorem getRelated_visited_invariant (g : Graph) (entity : String) (hops : Nat) :
    ((getRelated g entity hops).map RelatedRecord.connectedEntity).Nodup ∧
      ∀ r ∈ getRelated g entity hops, r.connectedEntity ≠ entity := by
  unfold getRelated
  by_cases h : g.hasNode entity
  · rw [if_pos h]
    have hinv : BfsInv entity ⟨[entity], [entity], []⟩ := ⟨rfl, by simp⟩
    have hn := bfsLoop_inv entity g hops [entity] [entity] [] hinv
    rw [List.nodup_cons] at hn
    refine ⟨hn.2, ?_⟩
    intro r hr hEq
    exact hn.1 (List.mem_map.mpr ⟨r, hr, hEq⟩)
  · rw [if_neg h]
    simp

/-- Claim C6: `extract_entities("The Project Alpha team met Alice.")` returns
exactly the multi-word entity `Project Alpha` and the entity `Alice` — the
bare sentence-initial stopword `The` is not extracted — and a single
qualifying token in sentence-start position is excluded unless it starts a
multi-word run: `extract_entities("Zebra runs fast.")` is empty. -/
theorem extractEntities_sentence_start :
    extractEntities "The Project Alpha team met Alice.".data =
        [⟨"entity".data, "Project Alpha".data⟩, ⟨"entity".data, "Alice".data⟩] ∧
      (∀ e ∈ extractEntities "The Project Alpha team met Alice.".data,
        ¬ e.value = "The".data) ∧
      extractEntities "Zebra runs fast.".data = [] := by
  refine ⟨by decide, by decide, by decide⟩

/-- Claim C1 (failing-input evaluation): the `stream_chat` call inside
`generate()` passes the keyword `temperature`, which `stream_chat` does not
declare, so the call raises `TypeError` as soon as the response body is
iterated — the turn aborts before any content fragment is produced, for every
conversation and in particular when the vector engine is unreachable. -/
theorem streamChat_call_rejects_temperature :
    keywordsBind streamChatParams sendMessageStreamChatKeywords = false ∧
      sendMessageStreamChatKeywords.contains "temperature" = true ∧
      streamChatParams.contains "temperature" = false := by
  refine ⟨by decide, by decide, by decide⟩

theorem persistTail_all_persistence (env : GenerateEnv) :
    ∀ ev ∈ generatePersistTail env, ev.isPersistenceCall = true := by
  intro ev hev
  simp only [generatePersistTail, List.cons_append, List.mem_cons,
    List.mem_append] at hev
  rcases hev with h | h | h
  · subst h; rfl
  · split at h
    · have h2 : ev = TurnEvent.embedMessage env.userMessageId "user".data
            env.userContent ∨
          ev = TurnEvent.embedMessage env.assistantMessageId "assistant".data
            (fullResponse env) := by
        simpa using h
      rcases h2 with h2 | h2 <;> subst h2 <;> rfl
    · simp at h
  · split at h
    · rcases List.mem_append.mp h with h2 | h2
      · obtain ⟨e, _, he⟩ := List.mem_map.mp h2
        subst he; rfl
      · simp only [List.mem_singleton] at h2
        subst h2; rfl
    · simp at h

/-- Claim C2: in every turn, the trace of `generate()` is the stream's
content fragments in order, then the metadata fragment, then the persistence
calls: the leading segment holds no persistence call, the trailing segment
holds no content fragment, and its first event persists the assistant message
with the fully accumulated response buffer.  No persistence call is ever
observed before the last content fragment. -/
theorem generateTrace_persistence_after_stream (env : GenerateEnv) :
    generateTrace env =
        (env.llmContents.map TurnEvent.contentFrag ++
          [TurnEvent.metaFrag (metaFragmentStr env)]) ++
          generatePersistTail env ∧
      (∀ ev ∈ env.llmContents.map TurnEvent.contentFrag ++
          [TurnEvent.metaFrag (metaFragmentStr env)],
        ev.isPersistenceCall = false) ∧
      (∀ ev ∈ generatePersistTail env, ev.isContentFrag = false) ∧
      (generatePersistTail env).head? =
        some (TurnEvent.saveAssistantMessage env.conversationId
          (fullResponse env)) := by
  refine ⟨rfl, ?_, ?_, rfl⟩
  · intro ev hev
    rcases List.mem_append.mp hev with h | h
    · obtain ⟨s, _, hs⟩ := List.mem_map.mp h
      subst hs; rfl
    · simp only [List.mem_singleton] at h
      subst h; rfl
  · intro ev hev
    have hp := persistTail_all_persistence env ev hev
    cases ev <;> first | rfl | exact absurd hp (by simp [TurnEvent.isPersistenceCall])

end NebulusGantry

